import Mathlib

/-!
# Verification of binance-cross-pair-chart

Shallow embedding of the server core of the `binance-cross-pair-chart`
repository: the synthetic-pair computation (`BinanceAPI.getSyntheticPair`
in `src/server/binance.js`), the cache manager (`src/server/cache.js`),
and the validation / orchestration logic of the `/api/klines` and
`/api/refresh` HTTP handlers (`src/server/index.js`).

Price fields are modelled as rational numbers (the source uses JS
floating-point numbers; none of the verified claims depends on rounding).
Timestamps are natural numbers (seconds since epoch).
-/

/-- One OHLCV bar, as produced by `BinanceAPI.getKlines`:
`{ time, open, high, low, close, volume }`. -/
structure Kline where
  time : Nat
  open_ : ℚ
  high : ℚ
  low : ℚ
  close : ℚ
  volume : ℚ
  deriving DecidableEq, Repr

namespace BinanceAPI

/-- Lookup in the JS `Map` built by
`new Map(klinesB.map(k => [k.time, k]))`: for duplicate keys the last
entry wins, and `get` returns `undefined` (here `none`) when absent. -/
def klinesBMap (klinesB : List Kline) (t : Nat) : Option Kline :=
  klinesB.foldl (fun acc k => if k.time = t then some k else acc) none

/-- The ratio bar built in the body of `getSyntheticPair`'s `.map`
callback when a matching bar exists. -/
def ratioBar (klineA klineB : Kline) : Kline :=
  { time := klineA.time
    open_ := klineA.open_ / klineB.open_
    high := klineA.high / klineB.high
    low := klineA.low / klineB.low
    close := klineA.close / klineB.close
    volume := klineA.volume }

/-- The pure core of `BinanceAPI.getSyntheticPair`, applied to the two
series already fetched: map over `klinesA`, returning `null` (here
`none`) when `klinesBMap` has no bar at the same timestamp, then filter
the `null`s out.  `.map f` followed by `.filter (k => k !== null)` is
`List.filterMap`. -/
def getSyntheticPair (klinesA klinesB : List Kline) : List Kline :=
  klinesA.filterMap (fun klineA =>
    match klinesBMap klinesB klineA.time with
    | none => none
    | some klineB => some (ratioBar klineA klineB))

theorem klinesBMap_nil (t : Nat) : klinesBMap [] t = none := rfl

theorem klinesBMap_snoc (xs : List Kline) (x : Kline) (t : Nat) :
    klinesBMap (xs ++ [x]) t =
      if x.time = t then some x else klinesBMap xs t := by
  unfold klinesBMap
  rw [List.foldl_append]
  rfl

theorem klinesBMap_isSome_iff {klinesB : List Kline} {t : Nat} :
    (klinesBMap klinesB t).isSome ↔ t ∈ klinesB.map Kline.time := by
  induction klinesB using List.reverseRecOn with
  | nil => simp [klinesBMap_nil]
  | append_singleton xs x ih =>
    rw [klinesBMap_snoc]
    by_cases hx : x.time = t
    · simp [hx]
    · simp only [if_neg hx, ih, List.map_append, List.map_cons, List.map_nil,
        List.mem_append, List.mem_singleton]
      exact ⟨Or.inl, fun h => h.elim id (fun h => absurd h.symm hx)⟩

theorem klinesBMap_mem_time {klinesB : List Kline} {t : Nat} {b : Kline}
    (h : klinesBMap klinesB t = some b) : b ∈ klinesB ∧ b.time = t := by
  induction klinesB using List.reverseRecOn with
  | nil => simp [klinesBMap_nil] at h
  | append_singleton xs x ih =>
    rw [klinesBMap_snoc] at h
    by_cases hx : x.time = t
    · rw [if_pos hx] at h
      cases h
      exact ⟨List.mem_append_right _ (List.mem_singleton_self _), hx⟩
    · rw [if_neg hx] at h
      obtain ⟨hmem, ht⟩ := ih h
      exact ⟨List.mem_append_left _ hmem, ht⟩

theorem klinesBMap_eq_some {klinesB : List Kline} {t : Nat} {b : Kline}
    (hnd : (klinesB.map Kline.time).Nodup)
    (hb : b ∈ klinesB) (ht : b.time = t) :
    klinesBMap klinesB t = some b := by
  induction klinesB using List.reverseRecOn with
  | nil => cases hb
  | append_singleton xs x ih =>
    rw [klinesBMap_snoc]
    rw [List.map_append] at hnd
    have hnd' := (List.nodup_append.mp hnd).1
    rcases List.mem_append.mp hb with hmem | hlast
    · have hx : x.time ≠ t := by
        intro hxt
        have hdisj := (List.nodup_append.mp hnd).2.2
        exact hdisj (ht ▸ List.mem_map_of_mem Kline.time hmem)
          (by simp [hxt, ht])
      rw [if_neg hx]
      exact ih hnd' hmem
    · rw [List.mem_singleton] at hlast
      subst hlast
      rw [if_pos ht]

theorem getSyntheticPair_len_eq_filter (A B : List Kline) :
    (getSyntheticPair A B).length =
      (A.filter (fun a => (klinesBMap B a.time).isSome)).length := by
  induction A with
  | nil => rfl
  | cons a A' ih =>
    show (List.filterMap _ (a :: A')).length = _
    rw [List.filterMap_cons, List.filter_cons]
    cases hl : klinesBMap B a.time with
    | none => simpa [hl] using ih
    | some b => simpa [hl] using ih

theorem getSyntheticPair_times_sublist (A B : List Kline) :
    List.Sublist ((getSyntheticPair A B).map Kline.time) (A.map Kline.time) := by
  induction A with
  | nil => exact List.Sublist.refl _
  | cons a A' ih =>
    show List.Sublist ((List.filterMap _ (a :: A')).map Kline.time) _
    rw [List.filterMap_cons]
    cases hl : klinesBMap B a.time with
    | none => exact ih.trans (List.sublist_cons_self _ _)
    | some b =>
      rw [List.map_cons]
      exact (List.Sublist.cons₂ _ ih)

/-- C1: for input series with pairwise-distinct timestamps, at every
timestamp present in both series the synthetic bar emitted by
`getSyntheticPair` has `open = A.open / B.open`, and likewise for
`high`, `low`, `close`, while `volume` is series A's volume; it is the
unique output bar at that timestamp. -/
theorem synthetic_bar_fields (A B : List Kline)
    (hA : (A.map Kline.time).Nodup) (hB : (B.map Kline.time).Nodup)
    (a b : Kline) (ha : a ∈ A) (hb : b ∈ B) (ht : a.time = b.time) :
    ∃ c, c ∈ getSyntheticPair A B ∧
      c.time = a.time ∧
      c.open_ = a.open_ / b.open_ ∧
      c.high = a.high / b.high ∧
      c.low = a.low / b.low ∧
      c.close = a.close / b.close ∧
      c.volume = a.volume ∧
      ∀ d ∈ getSyntheticPair A B, d.time = a.time → d = c := by
  have hlook : klinesBMap B a.time = some b :=
    klinesBMap_eq_some hB hb ht.symm
  refine ⟨ratioBar a b, ?_, rfl, rfl, rfl, rfl, rfl, rfl, ?_⟩
  · exact List.mem_filterMap.mpr ⟨a, ha, by rw [hlook]⟩
  · intro d hd hdt
    obtain ⟨a', ha', hfa'⟩ := List.mem_filterMap.mp hd
    cases hl' : klinesBMap B a'.time with
    | none => rw [hl'] at hfa'; cases hfa'
    | some b' =>
      rw [hl'] at hfa'
      cases hfa'
      have hta' : a'.time = a.time := hdt
      have : a' = a := List.inj_on_of_nodup_map hA ha' ha hta'
      subst this
      rw [hlook] at hl'
      cases hl'
      rfl

/-- Witness for C1 at the end-to-end scenario of the spec:
`seriesA = [(t=100, o=20000, h=20100, l=19900, c=20050, v=10)]`,
`seriesB = [(t=100, o=2000, h=2010, l=1990, c=2005, v=5)]`. -/
theorem synthetic_bar_fields_witness :
    ∃ c, c ∈ getSyntheticPair
        [⟨100, 20000, 20100, 19900, 20050, 10⟩]
        [⟨100, 2000, 2010, 1990, 2005, 5⟩] ∧
      c.time = (⟨100, 20000, 20100, 19900, 20050, 10⟩ : Kline).time ∧
      c.open_ = (20000 : ℚ) / 2000 ∧
      c.high = (20100 : ℚ) / 2010 ∧
      c.low = (19900 : ℚ) / 1990 ∧
      c.close = (20050 : ℚ) / 2005 ∧
      c.volume = 10 ∧
      ∀ d ∈ getSyntheticPair
        [⟨100, 20000, 20100, 19900, 20050, 10⟩]
        [⟨100, 2000, 2010, 1990, 2005, 5⟩],
        d.time = (⟨100, 20000, 20100, 19900, 20050, 10⟩ : Kline).time → d = c :=
  synthetic_bar_fields _ _ (by decide) (by decide)
    ⟨100, 20000, 20100, 19900, 20050, 10⟩ ⟨100, 2000, 2010, 1990, 2005, 5⟩
    (by decide) (by decide) rfl

/-- C2 (amended): for input series with pairwise-distinct timestamps the
synthetic series has length at most `min (len A) (len B)`, and the bound
is attained whenever the two timestamp sets fully coincide.  (The claim's
converse — equality *only* when the sets coincide — is refuted by
`synthetic_length_min_without_coincidence`.) -/
theorem synthetic_length_le_min (A B : List Kline)
    (hA : (A.map Kline.time).Nodup) (hB : (B.map Kline.time).Nodup) :
    (getSyntheticPair A B).length ≤ min A.length B.length ∧
    ((∀ t, t ∈ A.map Kline.time ↔ t ∈ B.map Kline.time) →
      (getSyntheticPair A B).length = min A.length B.length) := by
  have hkept := getSyntheticPair_len_eq_filter A B
  have hsubA : List.Sublist
      (A.filter (fun a => (klinesBMap B a.time).isSome)) A :=
    List.filter_sublist A
  have hmapsub : List.Sublist
      ((A.filter (fun a => (klinesBMap B a.time).isSome)).map Kline.time)
      (A.map Kline.time) := hsubA.map _
  have hndkept := hA.sublist hmapsub
  have hsubset :
      (A.filter (fun a => (klinesBMap B a.time).isSome)).map Kline.time ⊆
        B.map Kline.time := by
    intro t ht
    obtain ⟨a, hak, hat⟩ := List.mem_map.mp ht
    have hp : (klinesBMap B a.time).isSome := by
      simpa using (List.mem_filter.mp hak).2
    exact hat ▸ klinesBMap_isSome_iff.mp hp
  have hlenB :
      (A.filter (fun a => (klinesBMap B a.time).isSome)).length ≤ B.length := by
    have := (List.subperm_of_subset hndkept hsubset).length_le
    simpa using this
  constructor
  · rw [hkept]
    exact le_min (le_trans hsubA.length_le (le_refl _)) hlenB
  · intro hsets
    have hall : ∀ a ∈ A, (klinesBMap B a.time).isSome := fun a ha =>
      klinesBMap_isSome_iff.mpr ((hsets a.time).mp (List.mem_map_of_mem _ ha))
    have hfilter : A.filter (fun a => (klinesBMap B a.time).isSome) = A :=
      List.filter_eq_self.mpr (fun a ha => by simpa using hall a ha)
    have hperm : (A.map Kline.time).Perm (B.map Kline.time) :=
      (List.subperm_of_subset hA (fun t ht => (hsets t).mp ht)).antisymm
        (List.subperm_of_subset hB (fun t ht => (hsets t).mpr ht))
    have hlen : A.length = B.length := by simpa using hperm.length_eq
    rw [hkept, hfilter, hlen, min_self]

/-- Witness for C2 (amended) at two coinciding one-bar series. -/
theorem synthetic_length_le_min_witness :
    (getSyntheticPair [⟨100, 1, 1, 1, 1, 1⟩] [⟨100, 2, 2, 2, 2, 2⟩]).length ≤
      min [(⟨100, 1, 1, 1, 1, 1⟩ : Kline)].length [(⟨100, 2, 2, 2, 2, 2⟩ : Kline)].length ∧
    ((∀ t, t ∈ [⟨100, 1, 1, 1, 1, 1⟩].map Kline.time ↔
        t ∈ [(⟨100, 2, 2, 2, 2, 2⟩ : Kline)].map Kline.time) →
      (getSyntheticPair [⟨100, 1, 1, 1, 1, 1⟩] [⟨100, 2, 2, 2, 2, 2⟩]).length =
        min [(⟨100, 1, 1, 1, 1, 1⟩ : Kline)].length
          [(⟨100, 2, 2, 2, 2, 2⟩ : Kline)].length) :=
  synthetic_length_le_min _ _ (by decide) (by decide)

/-- C2 counterexample: with `seriesA = [t=100]` and
`seriesB = [t=100, t=200]` (both strictly increasing, so valid series),
the synthetic length equals `min 1 2` although the timestamp sets do
not coincide — refuting "equality only when timestamp sets fully
coincide". -/
theorem synthetic_length_min_without_coincidence :
    (getSyntheticPair [⟨100, 1, 1, 1, 1, 1⟩]
        [⟨100, 2, 2, 2, 2, 2⟩, ⟨200, 3, 3, 3, 3, 3⟩]).length =
      min [(⟨100, 1, 1, 1, 1, 1⟩ : Kline)].length
        [(⟨100, 2, 2, 2, 2, 2⟩ : Kline), ⟨200, 3, 3, 3, 3, 3⟩].length ∧
    ¬ (∀ t, t ∈ [(⟨100, 1, 1, 1, 1, 1⟩ : Kline)].map Kline.time ↔
        t ∈ ([(⟨100, 2, 2, 2, 2, 2⟩ : Kline),
          ⟨200, 3, 3, 3, 3, 3⟩]).map Kline.time) :=
  ⟨by decide, fun h => absurd ((h 200).mpr (by decide)) (by decide)⟩

/-- C4: when series A's timestamps are strictly increasing, the
synthetic series' timestamps are strictly increasing, and the output
timestamps are a sublist of series A's timestamps (the bars keep series
A's relative order: no sorting is performed). -/
theorem synthetic_preserves_order (A B : List Kline)
    (hA : (A.map Kline.time).Pairwise (· < ·)) :
    ((getSyntheticPair A B).map Kline.time).Pairwise (· < ·) ∧
    List.Sublist ((getSyntheticPair A B).map Kline.time) (A.map Kline.time) :=
  ⟨List.Pairwise.sublist (getSyntheticPair_times_sublist A B) hA,
    getSyntheticPair_times_sublist A B⟩

/-- Witness for C4: series A with times 100 < 200 < 300, series B with
times 100 and 300 only. -/
theorem synthetic_preserves_order_witness :
    ((getSyntheticPair
        [⟨100, 1, 1, 1, 1, 1⟩, ⟨200, 2, 2, 2, 2, 2⟩, ⟨300, 3, 3, 3, 3, 3⟩]
        [⟨100, 4, 4, 4, 4, 4⟩, ⟨300, 5, 5, 5, 5, 5⟩]).map Kline.time).Pairwise
        (· < ·) ∧
    List.Sublist ((getSyntheticPair
        [⟨100, 1, 1, 1, 1, 1⟩, ⟨200, 2, 2, 2, 2, 2⟩, ⟨300, 3, 3, 3, 3, 3⟩]
        [⟨100, 4, 4, 4, 4, 4⟩, ⟨300, 5, 5, 5, 5, 5⟩]).map Kline.time)
      ([⟨100, 1, 1, 1, 1, 1⟩, ⟨200, 2, 2, 2, 2, 2⟩,
        ⟨300, 3, 3, 3, 3, 3⟩].map Kline.time) :=
  synthetic_preserves_order _ _ (by decide)

/-- C5: when the two series share no timestamp, the synthetic series is
the empty list (and the computation is total: no error is raised). -/
theorem synthetic_empty_overlap (A B : List Kline)
    (h : ∀ a ∈ A, ∀ b ∈ B, a.time ≠ b.time) :
    getSyntheticPair A B = [] := by
  apply List.filterMap_eq_nil_iff.mpr
  intro a ha
  cases hl : klinesBMap B a.time with
  | none => rfl
  | some b =>
    obtain ⟨hb, htb⟩ := klinesBMap_mem_time hl
    exact absurd htb.symm (h a ha b hb)

/-- Witness for C5: two one-bar series with disjoint timestamps. -/
theorem synthetic_empty_overlap_witness :
    getSyntheticPair [⟨100, 1, 1, 1, 1, 1⟩] [⟨200, 2, 2, 2, 2, 2⟩] = [] :=
  synthetic_empty_overlap _ _ (by decide)

end BinanceAPI

/-- Modelled from the spec: the `node-cache` store that `CacheManager`
wraps (`new NodeCache({stdTTL: 300, checkperiod: 60, useClones: false})`);
the library itself is an external dependency, not part of this
repository.  Spec §4.2: a mapping from a key to a stored value whose
entry expires `TTL` seconds after it is `set`; `get` of an absent or
expired key is a miss; `set` overwrites the key; `del` removes the key
and reports how many entries were removed; the periodic sweep only
frees memory and never changes a `get` outcome, so it is not modelled.
`useClones: false` means the stored value itself is returned. -/
structure NodeCache where
  entries : List (String × List Kline × Nat)
  deriving DecidableEq, Repr

def NodeCache.empty : NodeCache := ⟨[]⟩

def NodeCache.get (st : NodeCache) (key : String) (now : Nat) :
    Option (List Kline) :=
  match st.entries.find? (fun e => e.1 = key) with
  | some (_, v, expiry) => if now < expiry then some v else none
  | none => none

def NodeCache.set (st : NodeCache) (key : String) (v : List Kline)
    (ttl now : Nat) : NodeCache :=
  ⟨(key, v, now + ttl) :: st.entries.filter (fun e => ¬ e.1 = key)⟩

def NodeCache.del (st : NodeCache) (key : String) : NodeCache × Nat :=
  (⟨st.entries.filter (fun e => ¬ e.1 = key)⟩,
    (st.entries.filter (fun e => e.1 = key)).length)

namespace CacheManager

/-- The fifteen keys of the `ttlMap` object literal in
`CacheManager.getTTL`. -/
def supportedIntervals : List String :=
  ["1m", "3m", "5m", "15m", "30m", "1h", "2h", "4h",
   "6h", "8h", "12h", "1d", "3d", "1w", "1M"]

/-- The `ttlMap` object literal of `CacheManager.getTTL`, as a keyed
association list. -/
def ttlMap : List (String × Nat) :=
  [("1m", 60), ("3m", 180), ("5m", 300), ("15m", 600), ("30m", 900),
   ("1h", 1800), ("2h", 3600), ("4h", 7200), ("6h", 10800),
   ("8h", 14400), ("12h", 21600), ("1d", 43200), ("3d", 86400),
   ("1w", 172800), ("1M", 259200)]

/-- `CacheManager.getTTL`: the property lookup `ttlMap[interval] || 300`
(every value in the table is truthy, so `||` fires exactly on a missing
key). -/
def getTTL (interval : String) : Nat :=
  ((ttlMap.find? (fun e => e.1 = interval)).map Prod.snd).getD 300

/-- `CacheManager.generateKey`: the template literal
`${coinA}_${coinB}_${interval}`. -/
def generateKey (coinA coinB interval : String) : String :=
  coinA ++ "_" ++ coinB ++ "_" ++ interval

/-- `CacheManager.get`: look the generated key up in the store (the
`console.log` hit/miss branches do not affect the returned value). -/
def get (coinA coinB interval : String) (st : NodeCache) (now : Nat) :
    Option (List Kline) :=
  NodeCache.get st (generateKey coinA coinB interval) now

/-- `CacheManager.set`: store under the generated key with
`ttl = getTTL interval`. -/
def set (coinA coinB interval : String) (data : List Kline)
    (st : NodeCache) (now : Nat) : NodeCache :=
  NodeCache.set st (generateKey coinA coinB interval) data
    (getTTL interval) now

/-- `CacheManager.delete`: remove the generated key, returning the new
store and the number of deleted entries. -/
def delete (coinA coinB interval : String) (st : NodeCache) :
    NodeCache × Nat :=
  NodeCache.del st (generateKey coinA coinB interval)

theorem ttlMap_values_pos : ∀ e ∈ ttlMap, 0 < e.2 := by decide

theorem ttlMap_keys : ∀ e ∈ ttlMap, e.1 ∈ supportedIntervals := by decide

theorem getTTL_pos (interval : String) : 0 < getTTL interval := by
  unfold getTTL
  cases hf : ttlMap.find? (fun e => e.1 = interval) with
  | none => decide
  | some e =>
    simpa using ttlMap_values_pos e (List.mem_of_find?_eq_some hf)

theorem getTTL_default {i : String} (h : i ∉ supportedIntervals) :
    getTTL i = 300 := by
  unfold getTTL
  cases hf : ttlMap.find? (fun e => e.1 = i) with
  | none => rfl
  | some e =>
    exfalso
    apply h
    have hp : e.1 = i := by simpa using List.find?_some hf
    exact hp ▸ ttlMap_keys e (List.mem_of_find?_eq_some hf)

end CacheManager

namespace Server

/-- JS falsiness of an optional request parameter string (`!coinA`):
`undefined` (missing) and the empty string are the falsy cases. -/
def jsFalsy : Option String → Bool
  | none => true
  | some s => s = ""

/-- The two 400-class validation errors of `index.js`. -/
inductive ApiError where
  | missingParams
  | equalCoins
  deriving DecidableEq, Repr

/-- The validation phase of `app.get('/api/klines')` (the two `return
res.status(400)` guards): missing parameters first, then the raw
case-sensitive comparison `coinA === coinB`; on success the raw query
strings are handed on. -/
def klinesValidation (coinA coinB : Option String) :
    Except ApiError (String × String) :=
  if jsFalsy coinA || jsFalsy coinB then .error .missingParams
  else match coinA, coinB with
    | some a, some b => if a = b then .error .equalCoins else .ok (a, b)
    | _, _ => .error .missingParams

/-- The validation phase of `app.post('/api/refresh')`: only the
missing-parameter guard exists on this route. -/
def refreshValidation (coinA coinB : Option String) :
    Except ApiError (String × String) :=
  if jsFalsy coinA || jsFalsy coinB then .error .missingParams
  else match coinA, coinB with
    | some a, some b => .ok (a, b)
    | _, _ => .error .missingParams

/-- The `stats` object assembled by the `/api/klines` handler.  The
percentage is `parseFloat(((priceChange/firstCandle.close)*100).toFixed(2))`
in the source; the 2-decimal rounding of `toFixed` is not modelled (no
claim depends on it), the exact rational is kept. -/
structure Stats where
  currentPrice : ℚ
  openPrice : ℚ
  highPrice : ℚ
  lowPrice : ℚ
  priceChange : ℚ
  priceChangePercent : ℚ
  timestamp : Nat
  deriving DecidableEq, Repr

/-- The statistics block of the `/api/klines` handler:
`klines[klines.length - 1]` on an empty array is `undefined`, and
reading `.close` from `undefined` throws a `TypeError`; `none` models
that thrown error.  `Math.max(...)`/`Math.min(...)` over the spread
price lists are folds of the binary max/min. -/
def computeStats (klines : List Kline) : Option Stats :=
  match klines.getLast?, klines.head? with
  | some latestCandle, some firstCandle =>
      some { currentPrice := latestCandle.close
             openPrice := firstCandle.open_
             highPrice := (klines.map Kline.high).foldl max firstCandle.high
             lowPrice := (klines.map Kline.low).foldl min firstCandle.low
             priceChange := latestCandle.close - firstCandle.close
             priceChangePercent :=
               (latestCandle.close - firstCandle.close) / firstCandle.close * 100
             timestamp := latestCandle.time }
  | _, _ => none

/-- The responses the verified claims distinguish. -/
inductive HttpResponse where
  | badRequest (e : ApiError)
  | serverError
  | klinesOk (data : List Kline) (stats : Stats)
  | refreshOk (count : Nat)
  deriving DecidableEq, Repr

/-- `app.get('/api/klines')`: validation, cache probe under the *raw*
query strings, on miss a fetch with uppercased symbols followed by a
cache store, then the statistics block; a `TypeError` thrown there is
caught by the handler's `try` and becomes a 500 response, with the
cache store already performed.  `fetch A B i` stands for the awaited
`binanceAPI.getSyntheticPair(A, B, i, limit)` result; `interval`
defaults to `'1h'` when absent.  The JS miss test `if (!klines)` is
false for a cached empty array (arrays are truthy), so a cached value
is used whatever it contains. -/
def klinesHandler (fetch : String → String → String → List Kline)
    (coinA coinB interval : Option String) (st : NodeCache) (now : Nat) :
    HttpResponse × NodeCache :=
  match klinesValidation coinA coinB with
  | .error e => (.badRequest e, st)
  | .ok (a, b) =>
      let iv := interval.getD "1h"
      let probe :=
        match CacheManager.get a b iv st now with
        | some cached => (cached, st)
        | none =>
            let fetched := fetch a.toUpper b.toUpper iv
            (fetched, CacheManager.set a b iv fetched st now)
      match computeStats probe.1 with
      | none => (.serverError, probe.2)
      | some stats => (.klinesOk probe.1 stats, probe.2)

/-- `app.post('/api/refresh')`: validation, unconditional
`cache.delete` (its return value is only logged), a fresh fetch with
uppercased symbols, `cache.set` of the fresh result, and a 200 response
carrying the fresh count.  `interval` defaults to `'1h'` when absent. -/
def refreshHandler (fetch : String → String → String → List Kline)
    (coinA coinB interval : Option String) (st : NodeCache) (now : Nat) :
    HttpResponse × NodeCache :=
  match refreshValidation coinA coinB with
  | .error e => (.badRequest e, st)
  | .ok (a, b) =>
      let iv := interval.getD "1h"
      let st1 := (CacheManager.delete a b iv st).1
      let klines := fetch a.toUpper b.toUpper iv
      let st2 := CacheManager.set a b iv klines st1 now
      (.refreshOk klines.length, st2)

end Server

theorem NodeCache.get_set (st : NodeCache) (key : String) (v : List Kline)
    (ttl now : Nat) (h : 0 < ttl) :
    NodeCache.get (NodeCache.set st key v ttl now) key now = some v := by
  unfold NodeCache.get NodeCache.set
  simp [List.find?_cons, Nat.lt_add_of_pos_right h]

theorem NodeCache.del_set (st : NodeCache) (key : String) (v : List Kline)
    (ttl now : Nat) :
    (NodeCache.del (NodeCache.set st key v ttl now) key).1 =
      (NodeCache.del st key).1 := by
  unfold NodeCache.del NodeCache.set
  simp only [Prod.fst]
  congr 1
  simp [List.filter_cons, List.filter_filter]

/-- C9: reading a key immediately after storing a value under the same
key returns exactly the stored value (the model returns the stored
entry itself; the source configures `useClones: false`, so `node-cache`
hands back the same reference rather than a defensive copy). -/
theorem cache_get_after_set (coinA coinB interval : String)
    (v : List Kline) (st : NodeCache) (now : Nat) :
    CacheManager.get coinA coinB interval
      (CacheManager.set coinA coinB interval v st now) now = some v := by
  unfold CacheManager.get CacheManager.set
  exact NodeCache.get_set st _ v _ now (CacheManager.getTTL_pos interval)

/-- C7: the TTL policy of `CacheManager`: granularity `1m` gives a
60-second TTL and `1M` gives 259200 seconds (72 h); every supported
granularity maps into [60 s, 72 h]; an unrecognized granularity gets
the 300-second default; and `set` stamps its entry with
`now + getTTL interval`, i.e. the TTL lookup happens at set time. -/
theorem ttl_policy :
    CacheManager.getTTL "1m" = 60 ∧
    CacheManager.getTTL "1M" = 259200 ∧
    (∀ i ∈ CacheManager.supportedIntervals,
      60 ≤ CacheManager.getTTL i ∧ CacheManager.getTTL i ≤ 259200) ∧
    (∀ i, i ∉ CacheManager.supportedIntervals →
      CacheManager.getTTL i = 300) ∧
    (∀ coinA coinB interval v st now,
      (CacheManager.set coinA coinB interval v st now).entries.head? =
        some (CacheManager.generateKey coinA coinB interval, v,
          now + CacheManager.getTTL interval)) :=
  ⟨by decide, by decide, by decide,
    fun _ hi => CacheManager.getTTL_default hi,
    fun _ _ _ _ _ _ => rfl⟩

/-- Witness for C7: `"2d"` is not a supported granularity and falls
back to the 300-second default. -/
theorem ttl_policy_witness : CacheManager.getTTL "2d" = 300 :=
  ttl_policy.2.2.2.1 "2d" (by decide)

/-- C6: the force-refresh handler: the emitted count is that of the
fresh fetch for every prior cache state; the fresh result is what the
key holds afterwards; the whole handler outcome is unchanged by a `set`
on the same key performed immediately before (delete-then-recompute
bypasses the cache unconditionally); and deleting an absent key is a
total operation reporting 0 removed entries. -/
theorem refresh_bypasses_cache
    (fetch : String → String → String → List Kline)
    (a b : String) (iv : Option String) (st : NodeCache) (now : Nat)
    (ha : a ≠ "") (hb : b ≠ "") :
    (Server.refreshHandler fetch (some a) (some b) iv st now).1 =
      .refreshOk (fetch a.toUpper b.toUpper (iv.getD "1h")).length ∧
    CacheManager.get a b (iv.getD "1h")
      (Server.refreshHandler fetch (some a) (some b) iv st now).2 now =
      some (fetch a.toUpper b.toUpper (iv.getD "1h")) ∧
    (∀ v, Server.refreshHandler fetch (some a) (some b) iv
        (CacheManager.set a b (iv.getD "1h") v st now) now =
      Server.refreshHandler fetch (some a) (some b) iv st now) ∧
    (CacheManager.delete a b (iv.getD "1h") NodeCache.empty).2 = 0 := by
  have hval : Server.refreshValidation (some a) (some b) = .ok (a, b) := by
    simp [Server.refreshValidation, Server.jsFalsy, ha, hb]
  refine ⟨?_, ?_, ?_, rfl⟩
  · unfold Server.refreshHandler
    rw [hval]
  · unfold Server.refreshHandler
    rw [hval]
    exact NodeCache.get_set _ _ _ _ now (CacheManager.getTTL_pos _)
  · intro v
    unfold Server.refreshHandler
    rw [hval]
    have hdel : (CacheManager.delete a b (iv.getD "1h")
          (CacheManager.set a b (iv.getD "1h") v st now)).1 =
        (CacheManager.delete a b (iv.getD "1h") st).1 :=
      NodeCache.del_set st _ v _ now
    simp only [hdel]

/-- Witness fetch function: a constant upstream returning one bar. -/
def exampleFetch : String → String → String → List Kline :=
  fun _ _ _ => [⟨100, 1, 1, 1, 1, 1⟩]

/-- Witness for C6 at `coinA = "BTC"`, `coinB = "ETH"`, missing
interval, empty prior cache. -/
theorem refresh_bypasses_cache_witness :
    (Server.refreshHandler exampleFetch (some "BTC") (some "ETH") none
        NodeCache.empty 0).1 =
      .refreshOk (exampleFetch "BTC".toUpper "ETH".toUpper
        ((none : Option String).getD "1h")).length ∧
    CacheManager.get "BTC" "ETH" ((none : Option String).getD "1h")
      (Server.refreshHandler exampleFetch (some "BTC") (some "ETH") none
        NodeCache.empty 0).2 0 =
      some (exampleFetch "BTC".toUpper "ETH".toUpper
        ((none : Option String).getD "1h")) ∧
    (∀ v, Server.refreshHandler exampleFetch (some "BTC") (some "ETH") none
        (CacheManager.set "BTC" "ETH" ((none : Option String).getD "1h") v
          NodeCache.empty 0) 0 =
      Server.refreshHandler exampleFetch (some "BTC") (some "ETH") none
        NodeCache.empty 0) ∧
    (CacheManager.delete "BTC" "ETH" ((none : Option String).getD "1h")
      NodeCache.empty).2 = 0 :=
  refresh_bypasses_cache exampleFetch "BTC" "ETH" none NodeCache.empty 0
    (by decide) (by decide)

/-- C3 counterexample: `/api/refresh` has no symbol-equality guard at
all — identical symbols `"BTC"`/`"BTC"` pass its validation, so a fetch
is issued — and `/api/klines` compares the raw strings case-sensitively
before uppercasing, so `"btc"` vs `"BTC"` (equal after normalization to
uppercase) also passes. -/
theorem validation_case_counterexample :
    Server.refreshValidation (some "BTC") (some "BTC") =
      .ok ("BTC", "BTC") ∧
    Server.klinesValidation (some "btc") (some "BTC") =
      .ok ("btc", "BTC") := by
  constructor <;> rfl

/-- C3 (amended): the klines path rejects a request with a 400
InvalidInput-class error, leaving the cache untouched and issuing no
fetch, exactly when a symbol is missing/empty or the two raw symbols
are equal under case-sensitive comparison; the refresh path does so
exactly when a symbol is missing/empty (equal symbols are not rejected
there). -/
theorem validation_behaviour (coinA coinB : Option String) :
    ((∃ e, Server.klinesValidation coinA coinB = .error e) ↔
      (Server.jsFalsy coinA = true ∨ Server.jsFalsy coinB = true ∨
        coinA = coinB)) ∧
    ((∃ e, Server.refreshValidation coinA coinB = .error e) ↔
      (Server.jsFalsy coinA = true ∨ Server.jsFalsy coinB = true)) ∧
    (∀ e, Server.klinesValidation coinA coinB = .error e →
      ∀ fetch interval st now,
        Server.klinesHandler fetch coinA coinB interval st now =
          (.badRequest e, st)) ∧
    (∀ e, Server.refreshValidation coinA coinB = .error e →
      ∀ fetch interval st now,
        Server.refreshHandler fetch coinA coinB interval st now =
          (.badRequest e, st)) := by
  refine ⟨?_, ?_, ?_, ?_⟩
  · rcases coinA with _ | a
    · simp [Server.klinesValidation, Server.jsFalsy]
    · rcases coinB with _ | b
      · simp [Server.klinesValidation, Server.jsFalsy]
      · by_cases ha : a = ""
        · simp [Server.klinesValidation, Server.jsFalsy, ha]
        · by_cases hb : b = ""
          · simp [Server.klinesValidation, Server.jsFalsy, ha, hb]
          · by_cases hab : a = b
            · simp [Server.klinesValidation, Server.jsFalsy, ha, hb, hab]
            · simp [Server.klinesValidation, Server.jsFalsy, ha, hb, hab]
  · rcases coinA with _ | a
    · simp [Server.refreshValidation, Server.jsFalsy]
    · rcases coinB with _ | b
      · simp [Server.refreshValidation, Server.jsFalsy]
      · by_cases ha : a = ""
        · simp [Server.refreshValidation, Server.jsFalsy, ha]
        · by_cases hb : b = ""
          · simp [Server.refreshValidation, Server.jsFalsy, ha, hb]
          · simp [Server.refreshValidation, Server.jsFalsy, ha, hb]
  · intro e he fetch interval st now
    unfold Server.klinesHandler
    rw [he]
  · intro e he fetch interval st now
    unfold Server.refreshHandler
    rw [he]

/-- Witness for C3 (amended): equal case-sensitive symbols on the
klines path do yield a validation error. -/
theorem validation_behaviour_witness :
    ∃ e, Server.klinesValidation (some "BTC") (some "BTC") = .error e :=
  (validation_behaviour (some "BTC") (some "BTC")).1.mpr
    (Or.inr (Or.inr rfl))

theorem underscore_sep_inj {a b x y : List Char}
    (ha : ¬ '_' ∈ a) (hb : ¬ '_' ∈ b)
    (h : a ++ '_' :: x = b ++ '_' :: y) : a = b := by
  induction a generalizing b with
  | nil =>
    cases b with
    | nil => rfl
    | cons d bs =>
      rw [List.nil_append, List.cons_append] at h
      injection h with h1 h2
      exact absurd (by rw [h1]; exact List.mem_cons_self _ _) hb
  | cons c as ih =>
    cases b with
    | nil =>
      rw [List.nil_append, List.cons_append] at h
      injection h with h1 h2
      exact absurd (by rw [← h1]; exact List.mem_cons_self _ _) ha
    | cons d bs =>
      rw [List.cons_append, List.cons_append] at h
      injection h with h1 h2
      have has : ¬ '_' ∈ as := fun hm => ha (List.mem_cons_of_mem _ hm)
      have hbs : ¬ '_' ∈ bs := fun hm => hb (List.mem_cons_of_mem _ hm)
      rw [h1, ih has hbs h2]

/-- C8 counterexample: the generated key does not escape its `_`
separator, so a symbol containing `_` makes the A/B and B/A keys
collide: `generateKey "x_x" "x" g` and `generateKey "x" "x_x" g` are
both `"x_x_x_" ++ g` although `"x_x" ≠ "x"`. -/
theorem generateKey_collision :
    CacheManager.generateKey "x_x" "x" "1h" =
      CacheManager.generateKey "x" "x_x" "1h" ∧
    ("x_x" : String) ≠ "x" :=
  ⟨rfl, by decide⟩

/-- C8 (amended): for distinct symbols that do not contain the `_`
separator character — which holds for every real exchange ticker — the
cache key is order-sensitive: the A/B key differs from the B/A key for
every granularity. -/
theorem generateKey_order_sensitive (a b g : String)
    (hab : a ≠ b) (ha : ¬ '_' ∈ a.data) (hb : ¬ '_' ∈ b.data) :
    CacheManager.generateKey a b g ≠ CacheManager.generateKey b a g := by
  intro h
  apply hab
  have hd : (CacheManager.generateKey a b g).data =
      (CacheManager.generateKey b a g).data := by rw [h]
  unfold CacheManager.generateKey at hd
  simp only [String.data_append] at hd
  have h' : a.data ++ '_' :: (b.data ++ '_' :: g.data) =
      b.data ++ '_' :: (a.data ++ '_' :: g.data) := by
    simpa [List.append_assoc] using hd
  exact String.ext (underscore_sep_inj ha hb h')

/-- Witness for C8 (amended) at the tickers `"BTC"`, `"ETH"`. -/
theorem generateKey_order_sensitive_witness :
    CacheManager.generateKey "BTC" "ETH" "1h" ≠
      CacheManager.generateKey "ETH" "BTC" "1h" :=
  generateKey_order_sensitive "BTC" "ETH" "1h" (by decide) (by decide)
    (by decide)

/-- C10: on the klines read path, when the cache misses and the fetched
synthetic series is empty (e.g. the two raw series share no timestamp),
the handler stores the empty series in the cache and the statistics
block then reads `.close` of `undefined` (`klines[klines.length - 1]`
of an empty array), so the request takes the catch branch and answers a
500 failure instead of returning the empty data set; the empty series
stays cached afterwards. -/
theorem klines_empty_series_error
    (fetch : String → String → String → List Kline)
    (a b : String) (iv : Option String) (st : NodeCache) (now : Nat)
    (ha : a ≠ "") (hb : b ≠ "") (hab : a ≠ b)
    (hmiss : CacheManager.get a b (iv.getD "1h") st now = none)
    (hempty : fetch a.toUpper b.toUpper (iv.getD "1h") = []) :
    Server.klinesHandler fetch (some a) (some b) iv st now =
      (.serverError, CacheManager.set a b (iv.getD "1h") [] st now) ∧
    CacheManager.get a b (iv.getD "1h")
      (Server.klinesHandler fetch (some a) (some b) iv st now).2 now =
      some [] := by
  have hval : Server.klinesValidation (some a) (some b) = .ok (a, b) := by
    simp [Server.klinesValidation, Server.jsFalsy, ha, hb, hab]
  have hmain : Server.klinesHandler fetch (some a) (some b) iv st now =
      (.serverError, CacheManager.set a b (iv.getD "1h") [] st now) := by
    unfold Server.klinesHandler
    rw [hval]
    simp only [hmiss, hempty]
    rfl
  refine ⟨hmain, ?_⟩
  rw [hmain]
  exact NodeCache.get_set _ _ _ _ now (CacheManager.getTTL_pos _)

/-- An upstream whose synthetic result is the (empty) join of two
one-bar series with disjoint timestamps. -/
def disjointFetch : String → String → String → List Kline :=
  fun _ _ _ =>
    BinanceAPI.getSyntheticPair [⟨100, 1, 1, 1, 1, 1⟩] [⟨200, 2, 2, 2, 2, 2⟩]

/-- Witness for C10: empty-overlap fetch on an empty cache. -/
theorem klines_empty_series_error_witness :
    Server.klinesHandler disjointFetch (some "BTC") (some "ETH") none
        NodeCache.empty 0 =
      (.serverError, CacheManager.set "BTC" "ETH"
        ((none : Option String).getD "1h") [] NodeCache.empty 0) ∧
    CacheManager.get "BTC" "ETH" ((none : Option String).getD "1h")
      (Server.klinesHandler disjointFetch (some "BTC") (some "ETH") none
        NodeCache.empty 0).2 0 =
      some [] :=
  klines_empty_series_error disjointFetch "BTC" "ETH" none NodeCache.empty 0
    (by decide) (by decide) (by decide) rfl rfl
